import Mathlib

/-!
Verification of the microio event loop (src/microio.py).

The loop drives generator tasks.  We embed it as a deterministic transition
system.  A task (a generator object) is identified by a natural number, which
also plays the role of the Python id of the object.  The behaviour of a
generator is a deterministic automaton: from a program state and a resume
input (send value or thrown exception) it produces an outcome (a yielded
suspension request, a terminal signal, or a raised exception) and a next
program state.  Real time and poll readiness events are external inputs and
enter the model through an oracle supplied per loop iteration.

Machine integers do not occur; deadlines, masks and file descriptors are
natural numbers.  Python dicts are embedded as association lists with
dict-style update and delete.
-/

namespace Microio

/-- Values that tasks return and receive (return values, poll masks). -/
abbrev V := Nat

/-- Identity of a generator object; doubles as the Python id of the object. -/
abbrev TaskId := Nat

/-- File descriptor, the result of sock.fileno(). -/
abbrev Fd := Nat

/-- Exceptions that the loop keeps in flight.  StopIteration and Return are
terminal signals and are modelled separately as TermSig.  The loop raises
RuntimeError(current) for malformed requests; user code raises arbitrary
exceptions which we code by a number. -/
inductive Exc where
  | malformed (t : TaskId)
  | user (code : Nat)
  deriving DecidableEq, Repr

/-- First component of a yielded 2-tuple: either a real socket object with a
fileno, or anything else (fails the isinstance check in the loop). -/
inductive SockArg where
  | sock (fd : Fd)
  | notSock
  deriving DecidableEq, Repr

/-- The suspension requests a task can yield, classified the way the loop
inspects the yielded value: a generator (subroutine call, child), a generator
function (new detached task, spawn), a 2-tuple (IO request), a tuple of wrong
arity, a number (deadline), None (reschedule), or anything else. -/
inductive Req where
  | child (t : TaskId)
  | spawn (t : TaskId)
  | io (sa : SockArg) (mask : Option Nat)
  | badTuple
  | sleep (deadline : Nat)
  | yieldNone
  | unknown
  deriving DecidableEq, Repr

/-- Terminal signal of a task step: StopIteration carrying a value (return v,
or falling off the end, value = none) or an explicitly raised Return(v). -/
inductive TermSig where
  | normal (v : Option V)
  | ret (v : Option V)
  deriving DecidableEq, Repr

/-- Outcome of resuming a task once. -/
inductive Outcome where
  | yields (r : Req)
  | term (sig : TermSig)
  | raises (code : Nat)
  deriving DecidableEq, Repr

/-- How a task is resumed: current.send(val) or current.throw(exc). -/
inductive Resume where
  | send (v : Option V)
  | throw (e : Exc)
  deriving DecidableEq, Repr

/-- A generator body: a deterministic automaton over program states. -/
structure TaskDef where
  step : Nat → Resume → Outcome × Nat

/-- The world maps every generator identity to its body. -/
abbrev World := TaskId → TaskDef

/-- Dict lookup on an association list. -/
def lookupL (k : Nat) : List (Nat × α) → Option α
  | [] => none
  | p :: rest => if p.1 = k then some p.2 else lookupL k rest

/-- Dict assignment d[k] = v: replace the binding if present, else append. -/
def updList (k : Nat) (v : α) : List (Nat × α) → List (Nat × α)
  | [] => [(k, v)]
  | p :: rest => if p.1 = k then (k, v) :: rest else p :: updList k v rest

/-- Dict deletion d.pop(k, None): drop every binding of k. -/
def delList (k : Nat) : List (Nat × α) → List (Nat × α)
  | [] => []
  | p :: rest => if p.1 = k then delList k rest else p :: delList k rest

/-- The reactor state: registered interest per fd, as the epoll backend keeps
it.  register and modify both store the mask; unregister drops the fd. -/
structure PollSt where
  reg : List (Fd × Nat)
  deriving DecidableEq, Repr

def PollSt.register (p : PollSt) (fd : Fd) (mask : Nat) : PollSt :=
  ⟨updList fd mask p.reg⟩

def PollSt.modify (p : PollSt) (fd : Fd) (mask : Nat) : PollSt :=
  ⟨updList fd mask p.reg⟩

def PollSt.unregister (p : PollSt) (fd : Fd) : PollSt :=
  ⟨delList fd p.reg⟩

/-- Lexicographic order on timer heap keys (deadline, id(current)); heapq pops
the smallest tuple.  Keys are unique because a suspended task pushes at most
one timer at a time and ids of live generators are distinct. -/
def timerLe (a b : Nat × TaskId) : Prop :=
  a.1 < b.1 ∨ (a.1 = b.1 ∧ a.2 ≤ b.2)

instance (a b : Nat × TaskId) : Decidable (timerLe a b) :=
  decidable_of_iff (a.1 < b.1 ∨ (a.1 = b.1 ∧ a.2 ≤ b.2)) Iff.rfl

/-- heapq.heappush on (deadline, id, task) tuples, modelled by sorted
insertion: with totally ordered distinct keys the pop order of a binary heap
is exactly the sorted order. -/
def heapPush (e : Nat × TaskId) : List (Nat × TaskId) → List (Nat × TaskId)
  | [] => [e]
  | x :: xs => if timerLe e x then e :: x :: xs else x :: heapPush e xs

/-- The mutable state of one loop invocation. -/
structure LoopSt where
  /-- reactor -/
  poll : PollSt
  /-- sockets dict: fd to the stored mask (the stored sock object is never
  consulted, only the mask component and presence are) -/
  sockets : List (Fd × Nat)
  /-- timeouts heap of (deadline, id(current)) entries -/
  timeouts : List (Nat × TaskId)
  /-- waiters dict: subroutine generator to its caller -/
  waiters : List (TaskId × TaskId)
  /-- io_waiters dict: fd to the waiting task -/
  ioWaiters : List (Fd × TaskId)
  /-- ready deque of (task, val, exc) triples -/
  tasks : List (TaskId × Option V × Option Exc)
  /-- program state of every generator (its own suspended frame) -/
  pcs : List (TaskId × Nat)
  /-- root_ret -/
  rootRet : Option V
  /-- messages emitted through exc_logger.warn -/
  log : List (TaskId × Exc)
  deriving DecidableEq, Repr

/-- loop(task, hide_loop_tb, quiet_exc) keyword arguments.  hide_loop_tb only
trims traceback metadata, which carries no semantic content here. -/
structure Config where
  hideLoopTb : Bool
  quietExc : Bool
  deriving DecidableEq, Repr

def getPc (s : LoopSt) (t : TaskId) : Nat :=
  (lookupL t s.pcs).getD 0

def setPc (s : LoopSt) (t : TaskId) (pc : Nat) : LoopSt :=
  { s with pcs := updList t pc s.pcs }

/-- getattr(e, "value", None) on a StopIteration or Return instance. -/
def valueOf : TermSig → Option V
  | .normal v => v
  | .ret v => v

/-- The except (StopIteration, Return) handler: pop the waiter of current;
resume it with the value, or record root_ret when current is the root,
otherwise discard the value. -/
def handleTerm (root : TaskId) (s : LoopSt) (current : TaskId) (v : Option V) :
    LoopSt :=
  let waiter := lookupL current s.waiters
  let s1 := { s with waiters := delList current s.waiters }
  match waiter with
  | some w => { s1 with tasks := s1.tasks ++ [(w, v, none)] }
  | none => if current = root then { s1 with rootRet := v } else s1

/-- The except Exception handler: pop the waiter of current; if present,
enqueue it with the exception; otherwise reraise out of the loop unless
quiet_exc is set, in which case log.  The source does not consult root
here. -/
def handleExc (cfg : Config) (s : LoopSt) (current : TaskId) (e : Exc) :
    Except Exc LoopSt :=
  let waiter := lookupL current s.waiters
  let s1 := { s with waiters := delList current s.waiters }
  match waiter with
  | some w => .ok { s1 with tasks := s1.tasks ++ [(w, none, some e)] }
  | none =>
    if !cfg.quietExc then .error e
    else .ok { s1 with log := s1.log ++ [(current, e)] }

/-- Interpretation of a yielded value, lines 252-285 of src/microio.py.  The
RuntimeError(current) raises jump to the except Exception handler. -/
def handleReq (cfg : Config) (s : LoopSt) (current : TaskId) :
    Req → Except Exc LoopSt
  | .child t =>
    .ok { s with tasks := s.tasks ++ [(t, none, none)],
                 waiters := updList t current s.waiters }
  | .spawn t =>
    .ok { s with tasks := s.tasks ++ [(t, none, none), (current, none, none)] }
  | .io sa mask =>
    match sa with
    | .notSock => handleExc cfg s current (.malformed current)
    | .sock fd =>
      match mask with
      | none =>
        let old := lookupL fd s.sockets
        let s1 := { s with sockets := delList fd s.sockets }
        let s2 := match old with
          | some _ => { s1 with poll := s1.poll.unregister fd }
          | none => s1
        .ok { s2 with tasks := s2.tasks ++ [(current, none, none)] }
      | some m =>
        let old := lookupL fd s.sockets
        let s1 := { s with sockets := updList fd m s.sockets }
        let s2 := match old with
          | none => { s1 with poll := s1.poll.register fd m }
          | some _ => { s1 with poll := s1.poll.modify fd m }
        .ok { s2 with ioWaiters := updList fd current s2.ioWaiters }
  | .badTuple => handleExc cfg s current (.malformed current)
  | .sleep d =>
    .ok { s with timeouts := heapPush (d, current) s.timeouts }
  | .yieldNone =>
    .ok { s with tasks := s.tasks ++ [(current, none, none)] }
  | .unknown => handleExc cfg s current (.malformed current)

/-- The resume of a popped (task, val, exc) triple: throw when the queued exc
field is non-None (a non-empty exc_info tuple is truthy), else send val. -/
def resumeOf (val : Option V) (exc : Option Exc) : Resume :=
  match exc with
  | some e => Resume.throw e
  | none => Resume.send val

/-- The try-block continuation after resuming a task: interpret the step
result (the yielded request, or the caught terminal signal or exception). -/
def afterStep (cfg : Config) (root current : TaskId) (res : Outcome × Nat)
    (s1 : LoopSt) : Except Exc LoopSt :=
  let s2 := setPc s1 current res.2
  match res.1 with
  | .yields r => handleReq cfg s2 current r
  | .term sig => .ok (handleTerm root s2 current (valueOf sig))
  | .raises code => handleExc cfg s2 current (.user code)

/-- Phase 1 of an iteration: pop and resume one ready task when any is
ready. -/
def dispatch (W : World) (cfg : Config) (root : TaskId) (s : LoopSt) :
    Except Exc LoopSt :=
  match s.tasks with
  | [] => .ok s
  | (current, val, exc) :: rest =>
    let s1 := { s with tasks := rest }
    afterStep cfg root current
      ((W current).step (getPc s1 current) (resumeOf val exc)) s1

/-- One readiness event (fd, mask) from poll.poll: pop the io waiter of fd,
and enqueue it with resume value mask when one was registered. -/
def deliverEvent (s : LoopSt) (ev : Fd × Nat) : LoopSt :=
  let waiter := lookupL ev.1 s.ioWaiters
  let s1 := { s with ioWaiters := delList ev.1 s.ioWaiters }
  match waiter with
  | some w => { s1 with tasks := s1.tasks ++ [(w, some ev.2, none)] }
  | none => s1

/-- Phase 3: deliver the whole poll batch in order. -/
def pollPhase (s : LoopSt) (events : List (Fd × Nat)) : LoopSt :=
  events.foldl deliverEvent s

/-- Phase 2 (observable but stateless): the timeout handed to poll.poll. -/
inductive PollTimeout where
  | unbounded
  | seconds (n : Nat)
  deriving DecidableEq, Repr

def pollTimeout (s : LoopSt) (now : Nat) : PollTimeout :=
  if !s.tasks.isEmpty || s.sockets.isEmpty then .seconds 0
  else match s.timeouts with
    | (d, _) :: _ => .seconds (d - now)
    | [] => .unbounded

/-- Phase 4: handle the earliest timeout; a single heappop per iteration,
guarded by its deadline having passed. -/
def timerPhase (s : LoopSt) (now : Nat) : LoopSt :=
  match s.timeouts with
  | [] => s
  | (d, w) :: rest =>
    if d ≤ now then
      { s with timeouts := rest, tasks := s.tasks ++ [(w, none, none)] }
    else s

/-- The while condition: any((tasks, timeouts, sockets)). -/
def loopLive (s : LoopSt) : Bool :=
  !s.tasks.isEmpty || !s.timeouts.isEmpty || !s.sockets.isEmpty

/-- External inputs of one iteration: the poll batch and the clock reading
used by the timer phase. -/
structure Oracle where
  events : List (Fd × Nat)
  now : Nat
  deriving DecidableEq, Repr

/-- One body of the while loop. -/
def iteration (W : World) (cfg : Config) (root : TaskId) (o : Oracle)
    (s : LoopSt) : Except Exc LoopSt :=
  match dispatch W cfg root s with
  | .error e => .error e
  | .ok s1 => .ok (timerPhase (pollPhase s1 o.events) o.now)

/-- Result of running the loop for as many iterations as oracles supplied. -/
inductive LoopResult where
  | value (v : Option V)
  | raised (e : Exc)
  | running (s : LoopSt)
  deriving DecidableEq, Repr

def runLoop (W : World) (cfg : Config) (root : TaskId) :
    List Oracle → LoopSt → LoopResult
  | [], s => if loopLive s then .running s else .value s.rootRet
  | o :: rest, s =>
    if loopLive s then
      match iteration W cfg root o s with
      | .error e => .raised e
      | .ok s1 => runLoop W cfg root rest s1
    else .value s.rootRet

/-- State at entry of loop(task, ...): only the root task is ready. -/
def initSt (root : TaskId) : LoopSt :=
  { poll := ⟨[]⟩, sockets := [], timeouts := [], waiters := [], ioWaiters := [],
    tasks := [(root, none, none)], pcs := [], rootRet := none, log := [] }

/-- loop(task, hide_loop_tb, quiet_exc) under a schedule of external inputs. -/
def loop (W : World) (cfg : Config) (root : TaskId) (oras : List Oracle) :
    LoopResult :=
  runLoop W cfg root oras (initSt root)

/-! ## Association list lemmas -/

theorem lookup_updList (k : Nat) (v : α) (l : List (Nat × α)) (k' : Nat) :
    lookupL k' (updList k v l) = if k' = k then some v else lookupL k' l := by
  induction l with
  | nil =>
    by_cases h : k' = k
    · subst h; simp [updList, lookupL]
    · have h2 : ¬ k = k' := fun hc => h hc.symm
      simp [updList, lookupL, h, h2]
  | cons p rest ih =>
    by_cases hk : p.1 = k
    · by_cases h : k' = k
      · subst h; simp [updList, lookupL, hk]
      · have h2 : ¬ k = k' := fun hc => h hc.symm
        have h4 : ¬ p.1 = k' := fun hc => h2 (hk.symm.trans hc)
        simp [updList, lookupL, hk, h, h2, h4]
    · by_cases h : k' = k
      · subst h; simp [updList, lookupL, hk, ih]
      · by_cases h3 : p.1 = k'
        · subst h3; simp [updList, lookupL, hk, h]
        · simp [updList, lookupL, hk, h, h3, ih]

theorem lookup_delList (k : Nat) (l : List (Nat × α)) (k' : Nat) :
    lookupL k' (delList k l) = if k' = k then none else lookupL k' l := by
  induction l with
  | nil => simp [delList, lookupL]
  | cons p rest ih =>
    by_cases hk : p.1 = k
    · by_cases h : k' = k
      · subst h; simp [delList, hk, ih]
      · have h4 : ¬ p.1 = k' := fun hc => h (hc.symm.trans hk)
        have h2 : ¬ k = k' := fun hc => h hc.symm
        simp [delList, lookupL, hk, h, h2, h4, ih]
    · by_cases h : k' = k
      · subst h; simp [delList, lookupL, hk, ih]
      · by_cases h3 : p.1 = k'
        · subst h3; simp [delList, lookupL, hk, h]
        · simp [delList, lookupL, hk, h, h3, ih]

/-- The keys of an association list are distinct (a dict models this). -/
def keysNodup (l : List (Nat × α)) : Prop :=
  (l.map Prod.fst).Nodup

theorem keysNodup_nil : keysNodup ([] : List (Nat × α)) := by
  simp [keysNodup]

theorem mem_keys_updList (k a : Nat) (v : α) (l : List (Nat × α)) :
    a ∈ (updList k v l).map Prod.fst ↔ a = k ∨ a ∈ l.map Prod.fst := by
  induction l with
  | nil => simp [updList]
  | cons p rest ih =>
    by_cases hk : p.1 = k
    · subst hk; simp [updList]
    · simp [updList, hk, ih]; tauto

theorem keysNodup_updList (k : Nat) (v : α) (l : List (Nat × α))
    (h : keysNodup l) : keysNodup (updList k v l) := by
  induction l with
  | nil => simp [updList, keysNodup]
  | cons p rest ih =>
    rw [keysNodup, List.map_cons, List.nodup_cons] at h
    by_cases hk : p.1 = k
    · subst hk
      rw [keysNodup]
      simp only [updList, eq_self_iff_true, if_true, List.map_cons,
        List.nodup_cons]
      exact ⟨h.1, h.2⟩
    · have hrest := ih h.2
      rw [keysNodup] at hrest ⊢
      simp only [updList, if_neg hk]
      rw [List.map_cons, List.nodup_cons]
      refine ⟨?_, hrest⟩
      rw [mem_keys_updList]
      intro hc
      rcases hc with hc | hc
      · exact hk hc
      · exact h.1 hc

theorem delList_sublist (k : Nat) (l : List (Nat × α)) :
    (delList k l).Sublist l := by
  induction l with
  | nil => simp [delList]
  | cons p rest ih =>
    by_cases hk : p.1 = k
    · simp only [delList, if_pos hk]
      exact ih.cons p
    · simp only [delList, if_neg hk]
      exact ih.cons₂ p

theorem keysNodup_delList (k : Nat) (l : List (Nat × α))
    (h : keysNodup l) : keysNodup (delList k l) := by
  exact ((delList_sublist k l).map Prod.fst).nodup h

/-! ## C1: unhandled exceptions, quiet_exc and the root task -/

/-- World for C1: the root raises a user exception on its first resume. -/
def worldC1 : World := fun _ => ⟨fun _ _ => (.raises 7, 1)⟩

/-- C1 counterexample: with quiet_exc = true, an unhandled exception of the
ROOT task is logged and swallowed, and the loop returns normally with value
none instead of propagating the exception; the except handler consults only
the waiter map and quiet_exc, never whether the failing task is the root. -/
theorem C1_counterexample :
    loop worldC1 ⟨false, true⟩ 0 [⟨[], 0⟩] = .value none ∧
    loop worldC1 ⟨false, true⟩ 0 [⟨[], 0⟩] ≠ .raised (.user 7) ∧
    iteration worldC1 ⟨false, true⟩ 0 ⟨[], 0⟩ (initSt 0) =
      .ok { poll := ⟨[]⟩, sockets := [], timeouts := [], waiters := [],
            ioWaiters := [], tasks := [], pcs := [(0, 1)], rootRet := none,
            log := [(0, .user 7)] } :=
  ⟨rfl, by decide, rfl⟩

/-- C1 (amended): an unhandled exception of a task with no waiter (the root
task included) propagates out of the loop exactly when quiet_exc is false;
when quiet_exc is true it is logged and swallowed, for the root task as well
as for detached tasks. -/
theorem C1_exception_propagation (W : World) (cfg : Config)
    (root current : TaskId) (val : Option V)
    (rest : List (TaskId × Option V × Option Exc)) (s : LoopSt)
    (code pc' : Nat)
    (htasks : s.tasks = (current, val, none) :: rest)
    (hstep : (W current).step (getPc { s with tasks := rest } current)
      (.send val) = (.raises code, pc'))
    (hnowaiter : lookupL current s.waiters = none) :
    (cfg.quietExc = false → dispatch W cfg root s = .error (.user code)) ∧
    (cfg.quietExc = true → ∃ s', dispatch W cfg root s = .ok s' ∧
      s'.log = s.log ++ [(current, .user code)] ∧ s'.rootRet = s.rootRet) := by
  constructor
  · intro hq
    simp only [dispatch]
    rw [htasks]
    simp only [resumeOf, hstep, afterStep, handleExc, setPc]
    simp [hnowaiter, hq]
  · intro hq
    have hres : dispatch W cfg root s = .ok
        { s with tasks := rest, pcs := updList current pc' s.pcs,
                 waiters := delList current s.waiters,
                 log := s.log ++ [(current, Exc.user code)] } := by
      simp only [dispatch]
      rw [htasks]
      simp only [resumeOf, hstep, afterStep, handleExc, setPc]
      simp [hnowaiter, hq]
    exact ⟨_, hres, rfl, rfl⟩

/-- C1 witness: the amended theorem applied to worldC1 in both
configurations. -/
theorem C1_exception_propagation_witness :
    dispatch worldC1 ⟨false, false⟩ 9 (initSt 0) = .error (.user 7) ∧
    ∃ s', dispatch worldC1 ⟨false, true⟩ 9 (initSt 0) = .ok s' ∧
      s'.log = (initSt 0).log ++ [(0, .user 7)] ∧
      s'.rootRet = (initSt 0).rootRet :=
  ⟨(C1_exception_propagation worldC1 ⟨false, false⟩ 9 0 none [] (initSt 0) 7 1
      rfl rfl rfl).1 rfl,
   (C1_exception_propagation worldC1 ⟨false, true⟩ 9 0 none [] (initSt 0) 7 1
      rfl rfl rfl).2 rfl⟩

/-! ## C2: destination of MalformedRequest -/

/-- Projection used by concrete refutations: the ready queue of an iteration
result. -/
def readyOf : Except Exc LoopSt → List (TaskId × Option V × Option Exc)
  | .ok s => s.tasks
  | .error _ => []

/-- World for C2: root 0 yields child 1 and, when an exception is thrown into
it, catches it by terminating with 99; child 1 yields an unknown request. -/
def worldC2 : World := fun t =>
  if t = 0 then
    ⟨fun pc r =>
      match pc, r with
      | 0, .send _ => (.yields (.child 1), 1)
      | _, .throw _ => (.term (.normal (some 99)), 2)
      | _, _ => (.yields .unknown, 3)⟩
  else
    ⟨fun _ r =>
      match r with
      | .send _ => (.yields .unknown, 1)
      | .throw _ => (.term (.normal (some 42)), 1)⟩

/-- C2 counterexample: task 1 yields an unknown request while task 0 waits on
it.  After that dispatch the ready queue holds the MalformedRequest queued
for task 0, the PARENT, and holds no entry for the offending task 1; the
full run then returns 99, the value the parent produces on catching the
exception, not 42, the value the offender would produce on catching it.  So
the error is not injected into the offending task. -/
theorem C2_counterexample :
    readyOf (Except.bind
        (iteration worldC2 ⟨false, false⟩ 0 ⟨[], 0⟩ (initSt 0))
        (iteration worldC2 ⟨false, false⟩ 0 ⟨[], 0⟩)) =
      [(0, none, some (.malformed 1))] ∧
    loop worldC2 ⟨false, false⟩ 0 [⟨[], 0⟩, ⟨[], 0⟩, ⟨[], 0⟩] =
      .value (some 99) :=
  ⟨rfl, rfl⟩

/-- C2 (amended): a task that yields a request of unknown kind is treated as
having raised RuntimeError (the MalformedRequest): the error is delivered to
its waiting parent on the parent's next dispatch, and the offending task is
dropped; a parentless offender fails the loop when quiet_exc is false. -/
theorem C2_malformed_to_parent (W : World) (cfg : Config)
    (root current : TaskId) (val : Option V)
    (rest : List (TaskId × Option V × Option Exc)) (s : LoopSt) (pc' : Nat)
    (htasks : s.tasks = (current, val, none) :: rest)
    (hstep : (W current).step (getPc { s with tasks := rest } current)
      (.send val) = (.yields .unknown, pc')) :
    (∀ p, lookupL current s.waiters = some p →
      ∃ s', dispatch W cfg root s = .ok s' ∧
        s'.tasks = rest ++ [(p, none, some (.malformed current))] ∧
        lookupL current s'.waiters = none) ∧
    (lookupL current s.waiters = none → cfg.quietExc = false →
      dispatch W cfg root s = .error (.malformed current)) := by
  constructor
  · intro p hp
    have hres : dispatch W cfg root s = .ok
        { s with tasks := rest ++ [(p, none, some (Exc.malformed current))],
                 pcs := updList current pc' s.pcs,
                 waiters := delList current s.waiters } := by
      simp only [dispatch]
      rw [htasks]
      simp only [resumeOf, hstep, afterStep, handleReq, handleExc, setPc]
      simp [hp]
    exact ⟨_, hres, rfl, by simp [lookup_delList]⟩
  · intro hnone hq
    simp only [dispatch]
    rw [htasks]
    simp only [resumeOf, hstep, afterStep, handleReq, handleExc, setPc]
    simp [hnone, hq]

/-- C2 witness: the amended theorem applied to worldC2 at the state reached
after the first dispatch, where task 1 is ready and task 0 waits on it. -/
theorem C2_malformed_to_parent_witness :
    (∃ s', dispatch worldC2 ⟨false, false⟩ 0
        { initSt 0 with tasks := [(1, none, none)], waiters := [(1, 0)],
                        pcs := [(0, 1)] } = .ok s' ∧
      s'.tasks = [] ++ [(0, none, some (.malformed 1))] ∧
      lookupL 1 s'.waiters = none) ∧
    dispatch worldC2 ⟨false, false⟩ 0
        { initSt 0 with tasks := [(1, none, none)] } =
      .error (.malformed 1) :=
  ⟨(C2_malformed_to_parent worldC2 ⟨false, false⟩ 0 1 none []
      { initSt 0 with tasks := [(1, none, none)], waiters := [(1, 0)],
                      pcs := [(0, 1)] } 1 rfl rfl).1 0 rfl,
   (C2_malformed_to_parent worldC2 ⟨false, false⟩ 0 1 none []
      { initSt 0 with tasks := [(1, none, none)] } 1 rfl rfl).2 rfl rfl⟩

/-! ## C3: draining of expired timers -/

/-- Trivial world used where no dispatch happens. -/
def worldC3 : World := fun _ => ⟨fun _ _ => (.yields .yieldNone, 0)⟩

/-- A quiescent state with two expired timers for tasks 10 and 11. -/
def stateC3 : LoopSt :=
  { poll := ⟨[]⟩, sockets := [], timeouts := [(1, 10), (2, 11)], waiters := [],
    ioWaiters := [], tasks := [], pcs := [], rootRet := none, log := [] }

/-- C3 counterexample: at time 100 both timer deadlines 1 and 2 have expired,
yet one full loop iteration pops only the earliest of them; the timer with
deadline 2 is still in the heap after the iteration, so the next dispatch
happens with an expired timer still queued.  The timer phase has no loop: it
pops at most one entry per iteration. -/
theorem C3_counterexample :
    iteration worldC3 ⟨false, false⟩ 0 ⟨[], 100⟩ stateC3 =
      .ok { stateC3 with timeouts := [(2, 11)],
                         tasks := [(10, none, none)] } ∧
    1 ≤ 100 ∧ 2 ≤ 100 :=
  ⟨rfl, by decide, by decide⟩

/-- C3 (amended): per iteration the timer phase pops at most ONE timer, the
heap top, and only when its deadline has passed; remaining expired timers
wait for later iterations (still served in deadline order, one per
iteration, interleaved with dispatches). -/
theorem C3_single_expiry (s : LoopSt) (now d : Nat) (w : TaskId)
    (rest : List (Nat × TaskId)) (h : s.timeouts = (d, w) :: rest) :
    (d ≤ now → timerPhase s now =
      { s with timeouts := rest, tasks := s.tasks ++ [(w, none, none)] }) ∧
    (¬ d ≤ now → timerPhase s now = s) := by
  constructor
  · intro hexp
    simp [timerPhase, h, hexp]
  · intro hexp
    simp [timerPhase, h, hexp]

/-- C3 witness: the amended theorem applied to the two-expired-timer state. -/
theorem C3_single_expiry_witness :
    timerPhase stateC3 100 =
      { stateC3 with timeouts := [(2, 11)], tasks := [] ++ [(10, none, none)] } :=
  (C3_single_expiry stateC3 100 1 10 [(2, 11)] rfl).1 (by decide)

/-! ## C4: timer tiebreak among equal deadlines -/

/-- World for C4: every task immediately requests a sleep until 100. -/
def worldC4 : World := fun _ => ⟨fun _ _ => (.yields (.sleep 100), 1)⟩

/-- Ready queue with task 2 ahead of task 1: task 2 suspends first. -/
def stateC4 : LoopSt :=
  { initSt 2 with tasks := [(2, none, none), (1, none, none)] }

/-- Projection used by concrete refutations: the timer heap. -/
def timeoutsOf : Except Exc LoopSt → List (Nat × TaskId)
  | .ok s => s.timeouts
  | .error _ => []

/-- A quiescent state holding the heap produced by those two pushes. -/
def stateC4b : LoopSt :=
  { poll := ⟨[]⟩, sockets := [], timeouts := [(100, 1), (100, 2)],
    waiters := [], ioWaiters := [], tasks := [], pcs := [], rootRet := none,
    log := [] }

/-- C4 counterexample: task 2 pushes a sleep with deadline 100 first, then
task 1 pushes one with the same deadline; the heap key is (deadline,
id(current)), so the heap orders task 1 FIRST although its sleep was pushed
second, and the timer phase resumes task 1 first.  There is no push-time
counter: equal-deadline resumption follows task identity, not insertion
order. -/
theorem C4_counterexample :
    timeoutsOf (Except.bind (dispatch worldC4 ⟨false, false⟩ 2 stateC4)
        (dispatch worldC4 ⟨false, false⟩ 2)) = [(100, 1), (100, 2)] ∧
    (timerPhase stateC4b 100).tasks = [(1, none, none)] :=
  ⟨rfl, rfl⟩

/-- The timer heap order: lexicographic on (deadline, task id). -/
abbrev timerSorted : List (Nat × TaskId) → Prop := List.Sorted timerLe

theorem timerLe_refl (a : Nat × TaskId) : timerLe a a :=
  Or.inr ⟨rfl, le_refl _⟩

theorem timerLe_trans {a b c : Nat × TaskId} (h1 : timerLe a b)
    (h2 : timerLe b c) : timerLe a c := by
  rcases h1 with h1 | h1 <;> rcases h2 with h2 | h2
  · exact Or.inl (h1.trans h2)
  · exact Or.inl (h2.1 ▸ h1)
  · exact Or.inl (h1.1 ▸ h2)
  · exact Or.inr ⟨h1.1.trans h2.1, h1.2.trans h2.2⟩

theorem timerLe_of_not {a b : Nat × TaskId} (h : ¬ timerLe a b) :
    timerLe b a := by
  rw [timerLe] at h ⊢
  push_neg at h
  rcases Nat.lt_trichotomy b.1 a.1 with hl | he | hg
  · exact Or.inl hl
  · exact Or.inr ⟨he, le_of_lt (h.2 he.symm)⟩
  · exact absurd hg (by omega)

theorem mem_heapPush {e : Nat × TaskId} :
    ∀ {l : List (Nat × TaskId)} {b : Nat × TaskId}, b ∈ heapPush e l →
      b = e ∨ b ∈ l := by
  intro l
  induction l with
  | nil => intro b hb; simp [heapPush] at hb; exact Or.inl hb
  | cons x xs ih =>
    intro b hb
    by_cases hle : timerLe e x
    · simp only [heapPush, if_pos hle] at hb
      rcases List.mem_cons.mp hb with h | h
      · exact Or.inl h
      · exact Or.inr h
    · simp only [heapPush, if_neg hle] at hb
      rcases List.mem_cons.mp hb with h | h
      · exact Or.inr (h ▸ List.mem_cons_self x xs)
      · rcases ih h with h2 | h2
        · exact Or.inl h2
        · exact Or.inr (List.mem_cons_of_mem x h2)

theorem heapPush_sorted (e : Nat × TaskId) :
    ∀ {l : List (Nat × TaskId)}, timerSorted l → timerSorted (heapPush e l) := by
  intro l
  induction l with
  | nil => intro _; simp [heapPush, timerSorted]
  | cons x xs ih =>
    intro h
    have hx := (List.sorted_cons.mp h).1
    have hxs := (List.sorted_cons.mp h).2
    by_cases hle : timerLe e x
    · simp only [heapPush, if_pos hle]
      rw [timerSorted, List.sorted_cons]
      refine ⟨?_, h⟩
      intro b hb
      rcases List.mem_cons.mp hb with h2 | h2
      · exact h2 ▸ hle
      · exact timerLe_trans hle (hx b h2)
    · simp only [heapPush, if_neg hle]
      rw [timerSorted, List.sorted_cons]
      refine ⟨?_, ih hxs⟩
      intro b hb
      rcases mem_heapPush hb with h2 | h2
      · exact h2 ▸ timerLe_of_not hle
      · exact hx b h2

/-- C4 (amended): the tiebreak among equal deadlines is the task identity
(Python id of the generator), not a push-time sequence counter: heapPush
keeps the heap sorted by (deadline, id) and the entry popped first is minimal
in that order, so equal-deadline tasks are resumed in id order, which is
deterministic but unrelated to the order their sleeps were pushed. -/
theorem C4_tiebreak_by_id :
    (∀ (e : Nat × TaskId) (l : List (Nat × TaskId)), timerSorted l →
      timerSorted (heapPush e l)) ∧
    (∀ (x : Nat × TaskId) (xs : List (Nat × TaskId)), timerSorted (x :: xs) →
      ∀ y ∈ x :: xs, timerLe x y) := by
  constructor
  · intro e l h
    exact heapPush_sorted e h
  · intro x xs h y hy
    rcases List.mem_cons.mp hy with h2 | h2
    · exact h2 ▸ timerLe_refl x
    · exact (List.sorted_cons.mp h).1 y h2

/-- C4 witness: pushing (100, 1) into the singleton heap [(100, 2)] keeps it
sorted, and the head (100, 1) is minimal. -/
theorem C4_tiebreak_by_id_witness :
    timerSorted (heapPush (100, 1) [(100, 2)]) ∧
    ∀ y ∈ (100, 1) :: [(100, 2)], timerLe (100, 1) y :=
  ⟨C4_tiebreak_by_id.1 (100, 1) [(100, 2)] (by decide),
   C4_tiebreak_by_id.2 (100, 1) [(100, 2)] (by decide)⟩

/-! ## C5: child suspension and parent/child composition -/

/-- Child body for C5: terminates at once with value v. -/
def childC5 (v : Nat) : TaskDef := ⟨fun _ _ => (.term (.normal (some v)), 1)⟩

/-- Parent body for C5: yields child 1, then returns x exactly when resumed
with the value v (and x + 1 otherwise, making the resume value observable in
the loop result). -/
def parentC5 (v x : Nat) : TaskDef :=
  ⟨fun pc r =>
    match pc, r with
    | 0, .send _ => (.yields (.child 1), 1)
    | 1, .send w =>
      (.term (.normal (if w = some v then some x else some (x + 1))), 2)
    | _, _ => (.yields .unknown, 9)⟩

def worldC5 (v x : Nat) : World := fun t =>
  if t = 0 then parentC5 v x else childC5 v

/-- C5: yielding a child generator enqueues the child as a fresh ready task,
records child-to-parent in the join relation, and does not re-enqueue the
parent (first conjunct, the exact dispatch transition); and when the child
terminates with v, the parent is resumed with v and its own return value x
becomes the loop result (second conjunct: the run returns x, which the
parent produces only on being resumed with exactly v). -/
theorem C5_child_composition :
    (∀ (W : World) (cfg : Config) (root current t : TaskId) (val : Option V)
      (rest : List (TaskId × Option V × Option Exc)) (s : LoopSt) (pc' : Nat),
      s.tasks = (current, val, none) :: rest →
      (W current).step (getPc { s with tasks := rest } current) (.send val) =
        (.yields (.child t), pc') →
      dispatch W cfg root s = .ok
        { s with tasks := rest ++ [(t, none, none)],
                 waiters := updList t current s.waiters,
                 pcs := updList current pc' s.pcs }) ∧
    (∀ v x : Nat,
      loop (worldC5 v x) ⟨false, false⟩ 0 [⟨[], 0⟩, ⟨[], 0⟩, ⟨[], 0⟩] =
        .value (some x)) := by
  constructor
  · intro W cfg root current t val rest s pc' htasks hstep
    simp only [dispatch]
    rw [htasks]
    simp only [resumeOf, hstep, afterStep, handleReq, setPc]
  · intro v x
    simp [loop, runLoop, iteration, dispatch, resumeOf, afterStep, handleReq,
      handleTerm, valueOf, pollPhase, timerPhase, loopLive, initSt, getPc,
      setPc, lookupL, updList, delList, worldC5, parentC5, childC5]

/-- C5 witness: both conjuncts applied at v = 5, x = 3. -/
theorem C5_child_composition_witness :
    dispatch (worldC5 5 3) ⟨false, false⟩ 0 (initSt 0) = .ok
      { initSt 0 with tasks := [] ++ [(1, none, none)],
                      waiters := updList 1 0 (initSt 0).waiters,
                      pcs := updList 0 1 (initSt 0).pcs } ∧
    loop (worldC5 5 3) ⟨false, false⟩ 0 [⟨[], 0⟩, ⟨[], 0⟩, ⟨[], 0⟩] =
      .value (some 3) :=
  ⟨C5_child_composition.1 (worldC5 5 3) ⟨false, false⟩ 0 0 1 none [] (initSt 0)
      1 rfl rfl,
   C5_child_composition.2 5 3⟩

/-! ## C6: normal return and raise Return(v) are indistinguishable -/

/-- Two step results are observably equal when they are equal or differ only
in terminating by StopIteration versus by Return with the same value. -/
def obsEq (o1 o2 : Outcome × Nat) : Prop :=
  o1 = o2 ∨ ∃ v n,
    (o1 = (.term (.normal v), n) ∧ o2 = (.term (.ret v), n)) ∨
    (o1 = (.term (.ret v), n) ∧ o2 = (.term (.normal v), n))

/-- Two worlds whose tasks differ only in how they signal termination. -/
def worldEquiv (W1 W2 : World) : Prop :=
  ∀ t pc r, obsEq ((W1 t).step pc r) ((W2 t).step pc r)

theorem dispatch_obsEq (W1 W2 : World) (cfg : Config) (root : TaskId)
    (s : LoopSt) (h : worldEquiv W1 W2) :
    dispatch W1 cfg root s = dispatch W2 cfg root s := by
  rcases hs : s.tasks with _ | ⟨⟨current, val, exc⟩, rest⟩
  · simp only [dispatch, hs]
  · rcases exc with _ | e
    · have he := h current (getPc { s with tasks := rest } current)
        (.send val)
      simp only [dispatch, hs, resumeOf]
      rcases he with he | ⟨v, n, ⟨h1, h2⟩ | ⟨h1, h2⟩⟩
      · rw [he]
      · rw [h1, h2]; rfl
      · rw [h1, h2]; rfl
    · have he := h current (getPc { s with tasks := rest } current)
        (.throw e)
      simp only [dispatch, hs, resumeOf]
      rcases he with he | ⟨v, n, ⟨h1, h2⟩ | ⟨h1, h2⟩⟩
      · rw [he]
      · rw [h1, h2]; rfl
      · rw [h1, h2]; rfl

/-- C6: a task terminating normally with value v and one raising Return(v)
are indistinguishable to the loop: running any schedule over two worlds that
differ only in the termination style produces identical results, value
propagation to parents and the root return value included. -/
theorem C6_return_equiv (W1 W2 : World) (cfg : Config) (root : TaskId)
    (h : worldEquiv W1 W2) :
    ∀ (oras : List Oracle) (s : LoopSt),
      runLoop W1 cfg root oras s = runLoop W2 cfg root oras s := by
  intro oras
  induction oras with
  | nil => intro s; rfl
  | cons o rest ih =>
    intro s
    cases hl : loopLive s
    · simp only [runLoop, hl, Bool.false_eq_true, if_false]
    · simp only [runLoop, hl, if_true]
      rw [iteration, iteration, dispatch_obsEq W1 W2 cfg root s h]
      cases hd : dispatch W2 cfg root s
      · rfl
      · exact ih _

/-- World whose single task finishes by StopIteration with value 3. -/
def worldNormal : World := fun _ => ⟨fun _ _ => (.term (.normal (some 3)), 1)⟩

/-- World whose single task finishes by raising Return(3). -/
def worldReturn : World := fun _ => ⟨fun _ _ => (.term (.ret (some 3)), 1)⟩

/-- C6 witness: the two concrete worlds produce the same run, and that run
returns 3 (the Return identity law). -/
theorem C6_return_equiv_witness :
    runLoop worldNormal ⟨false, false⟩ 0 [⟨[], 0⟩] (initSt 0) =
      runLoop worldReturn ⟨false, false⟩ 0 [⟨[], 0⟩] (initSt 0) ∧
    runLoop worldNormal ⟨false, false⟩ 0 [⟨[], 0⟩] (initSt 0) =
      .value (some 3) :=
  ⟨C6_return_equiv worldNormal worldReturn ⟨false, false⟩ 0
      (fun _ _ _ => Or.inr ⟨some 3, 1, Or.inl ⟨rfl, rfl⟩⟩) [⟨[], 0⟩] (initSt 0),
   rfl⟩

/-! ## C7: validation of IoRegister requests -/

/-- World for C7: the root yields (sock with fd 3, mask 0). -/
def worldC7 : World :=
  fun _ => ⟨fun _ _ => (.yields (.io (.sock 3) (some 0)), 1)⟩

/-- C7 counterexample: a yielded (sock, 0) does NOT fail: mask 0 is not None,
so the register branch stores mask 0 in the sockets dict, registers fd 3
with the reactor with mask 0, and records the task as io waiter; the loop
keeps running instead of raising MalformedRequest. -/
theorem C7_counterexample :
    dispatch worldC7 ⟨false, false⟩ 0 (initSt 0) = .ok
      { poll := ⟨[(3, 0)]⟩, sockets := [(3, 0)], timeouts := [],
        waiters := [], ioWaiters := [(3, 0)], tasks := [], pcs := [(0, 1)],
        rootRet := none, log := [] } ∧
    loop worldC7 ⟨false, false⟩ 0 [⟨[], 0⟩] = .running
      { poll := ⟨[(3, 0)]⟩, sockets := [(3, 0)], timeouts := [],
        waiters := [], ioWaiters := [(3, 0)], tasks := [], pcs := [(0, 1)],
        rootRet := none, log := [] } :=
  ⟨rfl, rfl⟩

/-- C7 (amended): yielding a 2-tuple whose first component is not a socket
object raises MalformedRequest (propagating out of the loop for a parentless
offender with quiet_exc unset), but a zero mask on a real socket is accepted
like any other mask: the fd is stored and registered with mask 0 and no
error is raised. -/
theorem C7_register_validation (W : World) (cfg : Config)
    (root current : TaskId) (val : Option V)
    (rest : List (TaskId × Option V × Option Exc)) (s : LoopSt) (pc' : Nat)
    (htasks : s.tasks = (current, val, none) :: rest) :
    (∀ mask, (W current).step (getPc { s with tasks := rest } current)
        (.send val) = (.yields (.io .notSock mask), pc') →
      lookupL current s.waiters = none → cfg.quietExc = false →
      dispatch W cfg root s = .error (.malformed current)) ∧
    (∀ fd m, (W current).step (getPc { s with tasks := rest } current)
        (.send val) = (.yields (.io (.sock fd) (some m)), pc') →
      lookupL fd s.sockets = none →
      dispatch W cfg root s = .ok
        { s with tasks := rest,
                 sockets := updList fd m s.sockets,
                 poll := s.poll.register fd m,
                 ioWaiters := updList fd current s.ioWaiters,
                 pcs := updList current pc' s.pcs }) := by
  constructor
  · intro mask hstep hnowaiter hq
    simp only [dispatch]
    rw [htasks]
    simp only [resumeOf, hstep, afterStep, handleReq, handleExc, setPc]
    simp [hnowaiter, hq]
  · intro fd m hstep hfresh
    simp only [dispatch]
    rw [htasks]
    simp only [resumeOf, hstep, afterStep, handleReq, setPc]
    simp [hfresh]

/-- C7 witness: the amended theorem applied to a non-socket yield and to the
mask-0 registration of worldC7. -/
theorem C7_register_validation_witness :
    dispatch (fun _ => ⟨fun _ _ => (.yields (.io .notSock (some 1)), 1)⟩)
        ⟨false, false⟩ 0 (initSt 0) = .error (.malformed 0) ∧
    dispatch worldC7 ⟨false, false⟩ 0 (initSt 0) = .ok
      { initSt 0 with tasks := [],
                      sockets := updList 3 0 (initSt 0).sockets,
                      poll := (initSt 0).poll.register 3 0,
                      ioWaiters := updList 3 0 (initSt 0).ioWaiters,
                      pcs := updList 0 1 (initSt 0).pcs } :=
  ⟨(C7_register_validation (fun _ => ⟨fun _ _ => (.yields (.io .notSock (some 1)), 1)⟩)
      ⟨false, false⟩ 0 0 none [] (initSt 0) 1 rfl).1 (some 1) rfl rfl rfl,
   (C7_register_validation worldC7 ⟨false, false⟩ 0 0 none [] (initSt 0) 1
      rfl).2 3 0 rfl rfl⟩

/-! ## C8: re-registration replaces mask and waiter -/

theorem handleTerm_ioWaiters (root : TaskId) (s : LoopSt) (current : TaskId)
    (v : Option V) : (handleTerm root s current v).ioWaiters = s.ioWaiters := by
  simp only [handleTerm]
  rcases h : lookupL current s.waiters with _ | w
  · simp only [h]
    split <;> rfl
  · simp only [h]

theorem handleExc_ok_ioWaiters (cfg : Config) (s : LoopSt) (current : TaskId)
    (e : Exc) {s' : LoopSt} (h : handleExc cfg s current e = .ok s') :
    s'.ioWaiters = s.ioWaiters := by
  rcases hw : lookupL current s.waiters with _ | w
  · simp only [handleExc, hw] at h
    split at h
    · exact Except.noConfusion h
    · injection h with h2
      rw [← h2]
  · simp only [handleExc, hw] at h
    injection h with h2
    rw [← h2]

/-- A dispatch step keeps the io_waiters keys distinct: the only write is the
dict assignment io_waiters[fd] = current. -/
theorem dispatch_ioWaiters_nodup (W : World) (cfg : Config) (root : TaskId)
    {s s' : LoopSt} (hn : keysNodup s.ioWaiters)
    (hd : dispatch W cfg root s = .ok s') : keysNodup s'.ioWaiters := by
  rcases hs : s.tasks with _ | ⟨⟨current, val, exc⟩, rest⟩
  · simp only [dispatch, hs] at hd
    injection hd with h
    rw [← h]
    exact hn
  · simp only [dispatch, hs] at hd
    rcases hres : (W current).step (getPc { s with tasks := rest } current)
        (resumeOf val exc) with ⟨out, pc2⟩
    rw [hres] at hd
    rcases out with r | sig | code
    · rcases r with t | t | ⟨sa, mask⟩ | _ | d | _ | _
      · simp only [afterStep, setPc, handleReq] at hd
        injection hd with h
        rw [← h]
        exact hn
      · simp only [afterStep, setPc, handleReq] at hd
        injection hd with h
        rw [← h]
        exact hn
      · rcases sa with fd | _
        · rcases mask with _ | m
          · simp only [afterStep, setPc, handleReq] at hd
            split at hd <;>
              (injection hd with h; rw [← h]; exact hn)
          · simp only [afterStep, setPc, handleReq] at hd
            split at hd <;>
              (injection hd with h; rw [← h];
               exact keysNodup_updList fd current _ hn)
        · simp only [afterStep, setPc, handleReq] at hd
          rw [handleExc_ok_ioWaiters _ _ _ _ hd]
          exact hn
      · simp only [afterStep, setPc, handleReq] at hd
        rw [handleExc_ok_ioWaiters _ _ _ _ hd]
        exact hn
      · simp only [afterStep, setPc, handleReq] at hd
        injection hd with h
        rw [← h]
        exact hn
      · simp only [afterStep, setPc, handleReq] at hd
        injection hd with h
        rw [← h]
        exact hn
      · simp only [afterStep, setPc, handleReq] at hd
        rw [handleExc_ok_ioWaiters _ _ _ _ hd]
        exact hn
    · simp only [afterStep, setPc] at hd
      injection hd with h
      rw [← h, handleTerm_ioWaiters]
      exact hn
    · simp only [afterStep, setPc] at hd
      rw [handleExc_ok_ioWaiters _ _ _ _ hd]
      exact hn

theorem deliverEvent_ioWaiters (s : LoopSt) (ev : Fd × Nat) :
    (deliverEvent s ev).ioWaiters = delList ev.1 s.ioWaiters := by
  simp only [deliverEvent]
  rcases h : lookupL ev.1 s.ioWaiters with _ | w <;> simp only [h]

theorem pollPhase_ioWaiters_nodup (events : List (Fd × Nat)) :
    ∀ s : LoopSt, keysNodup s.ioWaiters →
      keysNodup (pollPhase s events).ioWaiters := by
  induction events with
  | nil => intro s hn; exact hn
  | cons ev rest ih =>
    intro s hn
    show keysNodup (pollPhase (deliverEvent s ev) rest).ioWaiters
    apply ih
    rw [deliverEvent_ioWaiters]
    exact keysNodup_delList _ _ hn

theorem timerPhase_ioWaiters (s : LoopSt) (now : Nat) :
    (timerPhase s now).ioWaiters = s.ioWaiters := by
  simp only [timerPhase]
  split
  · rfl
  · split <;> rfl

/-- C8: re-registering an fd that already has a waiter replaces both the
stored mask and the waiter (first conjunct: the exact dispatch transition,
whose ready queue is just the remaining deque - the displaced waiter w0 is
dropped without being enqueued), and every loop iteration preserves
distinctness of the io_waiters keys, so there is at most one waiter per fd
at all times (second conjunct). -/
theorem C8_waiter_replacement :
    (∀ (W : World) (cfg : Config) (root current w0 : TaskId) (val : Option V)
      (rest : List (TaskId × Option V × Option Exc)) (s : LoopSt)
      (pc' fd m m0 : Nat),
      s.tasks = (current, val, none) :: rest →
      (W current).step (getPc { s with tasks := rest } current) (.send val) =
        (.yields (.io (.sock fd) (some m)), pc') →
      lookupL fd s.sockets = some m0 →
      lookupL fd s.ioWaiters = some w0 →
      dispatch W cfg root s = .ok
        { s with tasks := rest,
                 sockets := updList fd m s.sockets,
                 poll := s.poll.modify fd m,
                 ioWaiters := updList fd current s.ioWaiters,
                 pcs := updList current pc' s.pcs } ∧
      lookupL fd (updList fd current s.ioWaiters) = some current ∧
      lookupL fd (updList fd m s.sockets) = some m) ∧
    (∀ (W : World) (cfg : Config) (root : TaskId) (o : Oracle)
      (s s' : LoopSt), keysNodup s.ioWaiters →
      iteration W cfg root o s = .ok s' → keysNodup s'.ioWaiters) := by
  constructor
  · intro W cfg root current w0 val rest s pc' fd m m0 htasks hstep hsock hw
    refine ⟨?_, ?_, ?_⟩
    · simp only [dispatch]
      rw [htasks]
      simp only [resumeOf, hstep, afterStep, handleReq, setPc]
      simp [hsock]
    · rw [lookup_updList]
      simp
    · rw [lookup_updList]
      simp
  · intro W cfg root o s s' hn hit
    simp only [iteration] at hit
    rcases hd : dispatch W cfg root s with e | s1
    · rw [hd] at hit
      exact Except.noConfusion hit
    · rw [hd] at hit
      injection hit with h
      rw [← h, timerPhase_ioWaiters]
      exact pollPhase_ioWaiters_nodup o.events s1
        (dispatch_ioWaiters_nodup W cfg root hn hd)

/-- C8 witness: task 5 re-registers fd 3, displacing waiter 9; and one
iteration on that state keeps the waiter keys distinct. -/
theorem C8_waiter_replacement_witness :
    (dispatch (fun _ => ⟨fun _ _ => (.yields (.io (.sock 3) (some 4)), 1)⟩)
        ⟨false, false⟩ 5
        { poll := ⟨[(3, 2)]⟩, sockets := [(3, 2)], timeouts := [],
          waiters := [], ioWaiters := [(3, 9)], tasks := [(5, none, none)],
          pcs := [], rootRet := none, log := [] } = .ok
      { poll := ⟨updList 3 4 [(3, 2)]⟩, sockets := updList 3 4 [(3, 2)],
        timeouts := [], waiters := [], ioWaiters := updList 3 5 [(3, 9)],
        tasks := [], pcs := updList 5 1 [], rootRet := none, log := [] } ∧
      lookupL 3 (updList 3 5 [(3, 9)]) = some 5 ∧
      lookupL 3 (updList 3 4 [(3, 2)]) = some 4) ∧
    (keysNodup ([] : List (Fd × TaskId)) →
      iteration (fun _ => ⟨fun _ _ => (.yields (.io (.sock 3) (some 4)), 1)⟩)
        ⟨false, false⟩ 0 ⟨[], 0⟩ (initSt 0) = .ok
          { poll := ⟨[(3, 4)]⟩, sockets := [(3, 4)], timeouts := [],
            waiters := [], ioWaiters := [(3, 0)], tasks := [],
            pcs := [(0, 1)], rootRet := none, log := [] } →
      keysNodup ([(3, 0)] : List (Fd × TaskId))) := by
  constructor
  · exact C8_waiter_replacement.1
      (fun _ => ⟨fun _ _ => (.yields (.io (.sock 3) (some 4)), 1)⟩)
      ⟨false, false⟩ 5 5 9 none []
      { poll := ⟨[(3, 2)]⟩, sockets := [(3, 2)], timeouts := [],
        waiters := [], ioWaiters := [(3, 9)], tasks := [(5, none, none)],
        pcs := [], rootRet := none, log := [] } 1 3 4 2 rfl rfl rfl rfl
  · intro hn hit
    have := C8_waiter_replacement.2
      (fun _ => ⟨fun _ _ => (.yields (.io (.sock 3) (some 4)), 1)⟩)
      ⟨false, false⟩ 0 ⟨[], 0⟩ (initSt 0) _ hn hit
    exact this

/-! ## C9: registry and reactor stay in correspondence -/

/-- The spec invariant: a stored (fd, mask) registry entry always has a
matching reactor registration whose mask covers (here: equals) the stored
mask, and every reactor registration has a registry entry. -/
def ioCorr (s : LoopSt) : Prop :=
  (∀ fd m, lookupL fd s.sockets = some m → lookupL fd s.poll.reg = some m) ∧
  (∀ fd m, lookupL fd s.poll.reg = some m → lookupL fd s.sockets = some m)

theorem ioCorr_of_frame {s s' : LoopSt} (h : ioCorr s)
    (hs : s'.sockets = s.sockets) (hp : s'.poll = s.poll) : ioCorr s' := by
  constructor <;> intro fd m hm
  · rw [hs] at hm
    rw [hp]
    exact h.1 fd m hm
  · rw [hp] at hm
    rw [hs]
    exact h.2 fd m hm

theorem ioCorr_updBoth {s s' : LoopSt} (h : ioCorr s) (fd m : Nat)
    (hs : s'.sockets = updList fd m s.sockets)
    (hp : s'.poll.reg = updList fd m s.poll.reg) : ioCorr s' := by
  constructor <;> intro fd' m' hm
  · rw [hs, lookup_updList] at hm
    rw [hp, lookup_updList]
    by_cases hfd : fd' = fd
    · simp only [hfd, if_pos rfl] at hm ⊢
      exact hm
    · simp only [if_neg hfd] at hm ⊢
      exact h.1 fd' m' hm
  · rw [hp, lookup_updList] at hm
    rw [hs, lookup_updList]
    by_cases hfd : fd' = fd
    · simp only [hfd, if_pos rfl] at hm ⊢
      exact hm
    · simp only [if_neg hfd] at hm ⊢
      exact h.2 fd' m' hm

theorem ioCorr_delBoth {s s' : LoopSt} (h : ioCorr s) (fd : Nat)
    (hs : s'.sockets = delList fd s.sockets)
    (hp : s'.poll.reg = delList fd s.poll.reg) : ioCorr s' := by
  constructor <;> intro fd' m' hm
  · rw [hs, lookup_delList] at hm
    rw [hp, lookup_delList]
    by_cases hfd : fd' = fd
    · simp only [hfd, if_pos rfl] at hm
      exact Option.noConfusion hm
    · simp only [if_neg hfd] at hm ⊢
      exact h.1 fd' m' hm
  · rw [hp, lookup_delList] at hm
    rw [hs, lookup_delList]
    by_cases hfd : fd' = fd
    · simp only [hfd, if_pos rfl] at hm
      exact Option.noConfusion hm
    · simp only [if_neg hfd] at hm ⊢
      exact h.2 fd' m' hm

theorem ioCorr_delAbsent {s s' : LoopSt} (h : ioCorr s) (fd : Nat)
    (habs : lookupL fd s.sockets = none)
    (hs : s'.sockets = delList fd s.sockets)
    (hp : s'.poll = s.poll) : ioCorr s' := by
  constructor <;> intro fd' m' hm
  · rw [hs, lookup_delList] at hm
    rw [hp]
    by_cases hfd : fd' = fd
    · simp only [hfd, if_pos rfl] at hm
      exact Option.noConfusion hm
    · simp only [if_neg hfd] at hm
      exact h.1 fd' m' hm
  · rw [hp] at hm
    rw [hs, lookup_delList]
    have h2 := h.2 fd' m' hm
    by_cases hfd : fd' = fd
    · rw [hfd] at h2
      rw [habs] at h2
      exact Option.noConfusion h2
    · simp only [if_neg hfd]
      exact h2

theorem handleTerm_sockets (root : TaskId) (s : LoopSt) (current : TaskId)
    (v : Option V) : (handleTerm root s current v).sockets = s.sockets := by
  simp only [handleTerm]
  rcases h : lookupL current s.waiters with _ | w
  · simp only [h]
    split <;> rfl
  · simp only [h]

theorem handleTerm_poll (root : TaskId) (s : LoopSt) (current : TaskId)
    (v : Option V) : (handleTerm root s current v).poll = s.poll := by
  simp only [handleTerm]
  rcases h : lookupL current s.waiters with _ | w
  · simp only [h]
    split <;> rfl
  · simp only [h]

theorem handleExc_ok_sockets (cfg : Config) (s : LoopSt) (current : TaskId)
    (e : Exc) {s' : LoopSt} (h : handleExc cfg s current e = .ok s') :
    s'.sockets = s.sockets := by
  rcases hw : lookupL current s.waiters with _ | w
  · simp only [handleExc, hw] at h
    split at h
    · exact Except.noConfusion h
    · injection h with h2
      rw [← h2]
  · simp only [handleExc, hw] at h
    injection h with h2
    rw [← h2]

theorem handleExc_ok_poll (cfg : Config) (s : LoopSt) (current : TaskId)
    (e : Exc) {s' : LoopSt} (h : handleExc cfg s current e = .ok s') :
    s'.poll = s.poll := by
  rcases hw : lookupL current s.waiters with _ | w
  · simp only [handleExc, hw] at h
    split at h
    · exact Except.noConfusion h
    · injection h with h2
      rw [← h2]
  · simp only [handleExc, hw] at h
    injection h with h2
    rw [← h2]

/-- Every suspension handling step preserves the correspondence, the silent
IoDeregister for an fd whose waiter is another task included: deregistration
removes the registry entry and the reactor registration together (or neither
when the fd was not registered). -/
theorem dispatch_ioCorr (W : World) (cfg : Config) (root : TaskId)
    {s s' : LoopSt} (h : ioCorr s)
    (hd : dispatch W cfg root s = .ok s') : ioCorr s' := by
  rcases hs : s.tasks with _ | ⟨⟨current, val, exc⟩, rest⟩
  · simp only [dispatch, hs] at hd
    injection hd with h2
    exact ioCorr_of_frame h (by rw [← h2]) (by rw [← h2])
  · simp only [dispatch, hs] at hd
    rcases hres : (W current).step (getPc { s with tasks := rest } current)
        (resumeOf val exc) with ⟨out, pc2⟩
    rw [hres] at hd
    rcases out with r | sig | code
    · rcases r with t | t | ⟨sa, mask⟩ | _ | d | _ | _
      · simp only [afterStep, setPc, handleReq] at hd
        injection hd with h2
        exact ioCorr_of_frame h (by rw [← h2]) (by rw [← h2])
      · simp only [afterStep, setPc, handleReq] at hd
        injection hd with h2
        exact ioCorr_of_frame h (by rw [← h2]) (by rw [← h2])
      · rcases sa with fd | _
        · rcases mask with _ | m
          · simp only [afterStep, setPc, handleReq, PollSt.unregister] at hd
            rcases hold : lookupL fd s.sockets with _ | m0
            · rw [hold] at hd
              simp only at hd
              injection hd with h2
              exact ioCorr_delAbsent h fd hold (by rw [← h2]) (by rw [← h2])
            · rw [hold] at hd
              simp only at hd
              injection hd with h2
              exact ioCorr_delBoth h fd (by rw [← h2]) (by rw [← h2])
          · simp only [afterStep, setPc, handleReq, PollSt.register,
              PollSt.modify] at hd
            rcases hold : lookupL fd s.sockets with _ | m0
            · rw [hold] at hd
              simp only at hd
              injection hd with h2
              exact ioCorr_updBoth h fd m (by rw [← h2]) (by rw [← h2])
            · rw [hold] at hd
              simp only at hd
              injection hd with h2
              exact ioCorr_updBoth h fd m (by rw [← h2]) (by rw [← h2])
        · simp only [afterStep, setPc, handleReq] at hd
          exact ioCorr_of_frame h
            ((handleExc_ok_sockets _ _ _ _ hd).trans rfl)
            ((handleExc_ok_poll _ _ _ _ hd).trans rfl)
      · simp only [afterStep, setPc, handleReq] at hd
        exact ioCorr_of_frame h
          ((handleExc_ok_sockets _ _ _ _ hd).trans rfl)
          ((handleExc_ok_poll _ _ _ _ hd).trans rfl)
      · simp only [afterStep, setPc, handleReq] at hd
        injection hd with h2
        exact ioCorr_of_frame h (by rw [← h2]) (by rw [← h2])
      · simp only [afterStep, setPc, handleReq] at hd
        injection hd with h2
        exact ioCorr_of_frame h (by rw [← h2]) (by rw [← h2])
      · simp only [afterStep, setPc, handleReq] at hd
        exact ioCorr_of_frame h
          ((handleExc_ok_sockets _ _ _ _ hd).trans rfl)
          ((handleExc_ok_poll _ _ _ _ hd).trans rfl)
    · simp only [afterStep, setPc] at hd
      injection hd with h2
      rw [← h2]
      exact ioCorr_of_frame h ((handleTerm_sockets _ _ _ _).trans rfl)
        ((handleTerm_poll _ _ _ _).trans rfl)
    · simp only [afterStep, setPc] at hd
      exact ioCorr_of_frame h
        ((handleExc_ok_sockets _ _ _ _ hd).trans rfl)
        ((handleExc_ok_poll _ _ _ _ hd).trans rfl)

theorem deliverEvent_sockets (s : LoopSt) (ev : Fd × Nat) :
    (deliverEvent s ev).sockets = s.sockets := by
  simp only [deliverEvent]
  rcases h : lookupL ev.1 s.ioWaiters with _ | w <;> simp only [h]

theorem deliverEvent_poll (s : LoopSt) (ev : Fd × Nat) :
    (deliverEvent s ev).poll = s.poll := by
  simp only [deliverEvent]
  rcases h : lookupL ev.1 s.ioWaiters with _ | w <;> simp only [h]

theorem pollPhase_sockets (events : List (Fd × Nat)) :
    ∀ s : LoopSt, (pollPhase s events).sockets = s.sockets := by
  induction events with
  | nil => intro s; rfl
  | cons ev rest ih =>
    intro s
    show (pollPhase (deliverEvent s ev) rest).sockets = s.sockets
    rw [ih, deliverEvent_sockets]

theorem pollPhase_poll (events : List (Fd × Nat)) :
    ∀ s : LoopSt, (pollPhase s events).poll = s.poll := by
  induction events with
  | nil => intro s; rfl
  | cons ev rest ih =>
    intro s
    show (pollPhase (deliverEvent s ev) rest).poll = s.poll
    rw [ih, deliverEvent_poll]

theorem timerPhase_sockets (s : LoopSt) (now : Nat) :
    (timerPhase s now).sockets = s.sockets := by
  simp only [timerPhase]
  split
  · rfl
  · split <;> rfl

theorem timerPhase_poll (s : LoopSt) (now : Nat) :
    (timerPhase s now).poll = s.poll := by
  simp only [timerPhase]
  split
  · rfl
  · split <;> rfl

/-- C9: the registry-reactor correspondence holds initially and is preserved
by every loop iteration (every suspension handling step included, also an
IoDeregister issued by a task other than the current waiter of the fd), and
it yields the literal claim: every (fd, mask, waiter) entry present in both
the sockets registry and the waiter map has a reactor registration carrying
exactly the stored mask. -/
theorem C9_registry_reactor_correspondence :
    (∀ root : TaskId, ioCorr (initSt root)) ∧
    (∀ (W : World) (cfg : Config) (root : TaskId) (o : Oracle)
      (s s' : LoopSt), ioCorr s → iteration W cfg root o s = .ok s' →
      ioCorr s') ∧
    (∀ s : LoopSt, ioCorr s → ∀ fd m w, lookupL fd s.sockets = some m →
      lookupL fd s.ioWaiters = some w → lookupL fd s.poll.reg = some m) := by
  refine ⟨?_, ?_, ?_⟩
  · intro root
    constructor <;> intro fd m hm <;> exact Option.noConfusion hm
  · intro W cfg root o s s' h hit
    simp only [iteration] at hit
    rcases hd : dispatch W cfg root s with e | s1
    · rw [hd] at hit
      exact Except.noConfusion hit
    · rw [hd] at hit
      injection hit with h2
      have hmid := dispatch_ioCorr W cfg root h hd
      refine ioCorr_of_frame hmid ?_ ?_
      · rw [← h2, timerPhase_sockets, pollPhase_sockets]
      · rw [← h2, timerPhase_poll, pollPhase_poll]
  · intro s h fd m w hm _
    exact h.1 fd m hm

/-- C9 witness: the three conjuncts applied concretely: the empty initial
state, one registering iteration, and the resulting state with its waiter. -/
theorem C9_registry_reactor_correspondence_witness :
    ioCorr (initSt 0) ∧
    (ioCorr (initSt 0) →
      iteration (fun _ => ⟨fun _ _ => (.yields (.io (.sock 3) (some 4)), 1)⟩)
        ⟨false, false⟩ 0 ⟨[], 0⟩ (initSt 0) = .ok
          { poll := ⟨[(3, 4)]⟩, sockets := [(3, 4)], timeouts := [],
            waiters := [], ioWaiters := [(3, 0)], tasks := [],
            pcs := [(0, 1)], rootRet := none, log := [] } →
      ioCorr { poll := ⟨[(3, 4)]⟩, sockets := [(3, 4)], timeouts := [],
               waiters := [], ioWaiters := [(3, 0)], tasks := [],
               pcs := [(0, 1)], rootRet := none, log := [] }) ∧
    lookupL 3 ([(3, 4)] : List (Fd × Nat)) = some 4 :=
  ⟨C9_registry_reactor_correspondence.1 0,
   fun h hit => C9_registry_reactor_correspondence.2.1
      (fun _ => ⟨fun _ _ => (.yields (.io (.sock 3) (some 4)), 1)⟩)
      ⟨false, false⟩ 0 ⟨[], 0⟩ (initSt 0) _ h hit,
   C9_registry_reactor_correspondence.2.2
      { poll := ⟨[(3, 4)]⟩, sockets := [(3, 4)], timeouts := [],
        waiters := [], ioWaiters := [(3, 0)], tasks := [],
        pcs := [(0, 1)], rootRet := none, log := [] }
      ⟨fun _ _ hm => hm, fun _ _ hm => hm⟩
      3 4 0 rfl rfl⟩

/-! ## C10: event delivery removes only the waiter -/

/-- C10: delivering a readiness event (fd, mask) removes only the waiter
entry for fd and enqueues that task with resume value mask (first conjunct:
the record equality shows the sockets registry, the reactor and every other
component unchanged); a nonempty sockets registry keeps the while loop alive
(second conjunct); the poll and timer phases never change the sockets
registry (third conjunct); and a dispatch whose outcome is not an
IoDeregister of fd leaves fd registered (fourth conjunct): the fd stays
registered until some task explicitly yields (sock, None). -/
theorem C10_event_delivery_frame :
    (∀ (s : LoopSt) (fd m : Nat) (w : TaskId),
      lookupL fd s.ioWaiters = some w →
      deliverEvent s (fd, m) =
        { s with ioWaiters := delList fd s.ioWaiters,
                 tasks := s.tasks ++ [(w, some m, none)] }) ∧
    (∀ s : LoopSt, s.sockets ≠ [] → loopLive s = true) ∧
    (∀ (s : LoopSt) (events : List (Fd × Nat)) (now : Nat),
      (pollPhase s events).sockets = s.sockets ∧
      (timerPhase s now).sockets = s.sockets) ∧
    (∀ (W : World) (cfg : Config) (root current : TaskId) (val : Option V)
      (exc : Option Exc) (rest : List (TaskId × Option V × Option Exc))
      (s s' : LoopSt) (out : Outcome) (pc' fd m0 : Nat),
      s.tasks = (current, val, exc) :: rest →
      (W current).step (getPc { s with tasks := rest } current)
        (resumeOf val exc) = (out, pc') →
      lookupL fd s.sockets = some m0 →
      out ≠ .yields (.io (.sock fd) none) →
      dispatch W cfg root s = .ok s' →
      (lookupL fd s'.sockets).isSome = true) := by
  refine ⟨?_, ?_, ?_, ?_⟩
  · intro s fd m w hw
    simp only [deliverEvent, hw]
  · intro s h
    rcases hsoc : s.sockets with _ | ⟨p, l⟩
    · exact absurd hsoc h
    · simp [loopLive, hsoc]
  · intro s events now
    exact ⟨pollPhase_sockets events s, timerPhase_sockets s now⟩
  · intro W cfg root current val exc rest s s' out pc' fd m0 htasks hstep
      hreg hne hd
    simp only [dispatch, htasks] at hd
    rw [hstep] at hd
    rcases out with r | sig | code
    · rcases r with t | t | ⟨sa, mask⟩ | _ | d | _ | _
      · simp only [afterStep, setPc, handleReq] at hd
        injection hd with h2
        rw [← h2]
        show (lookupL fd s.sockets).isSome = true
        rw [hreg]; rfl
      · simp only [afterStep, setPc, handleReq] at hd
        injection hd with h2
        rw [← h2]
        show (lookupL fd s.sockets).isSome = true
        rw [hreg]; rfl
      · rcases sa with fd2 | _
        · rcases mask with _ | m
          · have hfd2 : ¬ fd = fd2 := by
              intro hc
              exact hne (by rw [hc])
            simp only [afterStep, setPc, handleReq, PollSt.unregister] at hd
            rcases hold : lookupL fd2 s.sockets with _ | m1
            · rw [hold] at hd
              simp only at hd
              injection hd with h2
              rw [← h2]
              show (lookupL fd (delList fd2 s.sockets)).isSome = true
              rw [lookup_delList, if_neg hfd2, hreg]; rfl
            · rw [hold] at hd
              simp only at hd
              injection hd with h2
              rw [← h2]
              show (lookupL fd (delList fd2 s.sockets)).isSome = true
              rw [lookup_delList, if_neg hfd2, hreg]; rfl
          · simp only [afterStep, setPc, handleReq, PollSt.register,
              PollSt.modify] at hd
            rcases hold : lookupL fd2 s.sockets with _ | m1
            · rw [hold] at hd
              simp only at hd
              injection hd with h2
              rw [← h2]
              show (lookupL fd (updList fd2 m s.sockets)).isSome = true
              rw [lookup_updList]
              split
              · rfl
              · rw [hreg]; rfl
            · rw [hold] at hd
              simp only at hd
              injection hd with h2
              rw [← h2]
              show (lookupL fd (updList fd2 m s.sockets)).isSome = true
              rw [lookup_updList]
              split
              · rfl
              · rw [hreg]; rfl
        · simp only [afterStep, setPc, handleReq] at hd
          have hs : s'.sockets = s.sockets :=
            (handleExc_ok_sockets _ _ _ _ hd).trans rfl
          rw [hs, hreg]; rfl
      · simp only [afterStep, setPc, handleReq] at hd
        have hs : s'.sockets = s.sockets :=
          (handleExc_ok_sockets _ _ _ _ hd).trans rfl
        rw [hs, hreg]; rfl
      · simp only [afterStep, setPc, handleReq] at hd
        injection hd with h2
        rw [← h2]
        show (lookupL fd s.sockets).isSome = true
        rw [hreg]; rfl
      · simp only [afterStep, setPc, handleReq] at hd
        injection hd with h2
        rw [← h2]
        show (lookupL fd s.sockets).isSome = true
        rw [hreg]; rfl
      · simp only [afterStep, setPc, handleReq] at hd
        have hs : s'.sockets = s.sockets :=
          (handleExc_ok_sockets _ _ _ _ hd).trans rfl
        rw [hs, hreg]; rfl
    · simp only [afterStep, setPc] at hd
      injection hd with h2
      have hs : s'.sockets = s.sockets := by
        rw [← h2]
        exact (handleTerm_sockets _ _ _ _).trans rfl
      rw [hs, hreg]; rfl
    · simp only [afterStep, setPc] at hd
      have hs : s'.sockets = s.sockets :=
        (handleExc_ok_sockets _ _ _ _ hd).trans rfl
      rw [hs, hreg]; rfl

/-- State for the C10 witness: fd 3 registered with mask 4, waiter task 7,
and task 0 ready with a plain reschedule request. -/
def stateC10 : LoopSt :=
  { poll := ⟨[(3, 4)]⟩, sockets := [(3, 4)], timeouts := [], waiters := [],
    ioWaiters := [(3, 7)], tasks := [(0, none, none)], pcs := [],
    rootRet := none, log := [] }

/-- The state stateC10 after one dispatch of the reschedule request. -/
def stateC10' : LoopSt :=
  { poll := ⟨[(3, 4)]⟩, sockets := [(3, 4)], timeouts := [], waiters := [],
    ioWaiters := [(3, 7)], tasks := [(0, none, none)], pcs := [(0, 1)],
    rootRet := none, log := [] }

/-- C10 witness: the four conjuncts applied at fd 3 of stateC10. -/
theorem C10_event_delivery_frame_witness :
    deliverEvent stateC10 (3, 4) =
      { stateC10 with ioWaiters := delList 3 stateC10.ioWaiters,
                      tasks := stateC10.tasks ++ [(7, some 4, none)] } ∧
    loopLive stateC10 = true ∧
    (pollPhase stateC10 []).sockets = stateC10.sockets ∧
    (lookupL 3 stateC10'.sockets).isSome = true :=
  ⟨C10_event_delivery_frame.1 stateC10 3 4 7 rfl,
   C10_event_delivery_frame.2.1 stateC10 (by decide),
   (C10_event_delivery_frame.2.2.1 stateC10 [] 0).1,
   C10_event_delivery_frame.2.2.2
      (fun _ => ⟨fun _ _ => (.yields .yieldNone, 1)⟩) ⟨false, false⟩ 9 0 none
      none [] stateC10 stateC10' (.yields .yieldNone) 1 3 4 rfl rfl rfl
      (by decide) rfl⟩

end Microio
